import Mathlib

/-!
Shallow embedding of the X.500 Distinguished Name parser and renderer of
`src/ncrypt/dlggpgme.c` (`parse_dn_part`, `parse_dn`, `print_dn_part`,
`print_dn_parts`).

Modelling conventions:
* C strings become `List Char` (one `Char` per byte; a C string holds no
  NUL byte, so its end is the end of the list).  The hex-digit scanner of
  `parse_dn_part` advances two bytes per probe and can probe one byte past
  the terminating NUL; such reads past the end of the string are modelled
  as reading NUL (the probe fails and scanning stops).
* `mutt_mem_malloc` / `FREE` are mirrored by a live-buffer counter threaded
  through `parse_dn_aux` (the array growth `realloc` copies and frees, a
  net zero on the counter, and is not re-modelled).
* `print_utf8(fp, v, strlen(v))` converts `v` to the display charset and
  writes it; the conversion is modelled as the identity, and `strlen`
  truncates the buffer at its first NUL byte (`printValue`).
* `strcmp` equality of NUL-free C strings is list equality.
-/

/-- The C library's `isxdigit`: ASCII hexadecimal digit test. -/
def xdigit (c : Char) : Bool :=
  (('0' ≤ c && c ≤ '9') || ('a' ≤ c && c ≤ 'f') || ('A' ≤ c && c ≤ 'F'))

/-- Numeric value of a hexadecimal digit character. -/
def hexVal (c : Char) : Nat :=
  if '0' ≤ c && c ≤ '9' then c.toNat - '0'.toNat
  else if 'a' ≤ c && c ≤ 'f' then c.toNat - 'a'.toNat + 10
  else if 'A' ≤ c && c ≤ 'F' then c.toNat - 'A'.toNat + 10
  else 0

/-- The C library's `isspace` in the "C" locale, as skipped by `sscanf`'s
`%x` conversion before reading digits. -/
def isCSpace (c : Char) : Bool :=
  c = ' ' || c = '\t' || c = '\n' || (c.toNat = 11) || (c.toNat = 12) || c = '\r'

/-- `sscanf(s, "%2hhx", &b)`: skip leading whitespace, then read at most two
hexadecimal digits; `none` when no digit can be read (the target byte is
then left unassigned by `sscanf`). -/
def sscanf2hhx (l : List Char) : Option Nat :=
  match l.dropWhile isCSpace with
  | [] => none
  | c1 :: rest =>
    if xdigit c1 then
      some (match rest with
            | c2 :: _ => if xdigit c2 then 16 * hexVal c1 + hexVal c2 else hexVal c1
            | [] => hexVal c1)
    else none

/-- One parsed RDN: attribute type (`key`) and decoded `value`,
the `DnArray` entry of the source. -/
abbrev Attr := List Char × List Char

/-- Scan for the first `'='`; return the characters before it and the ones
after it, or `none` when the string ends first.  Models the attribute-type
scan `for (s = str + 1; s[0] != 0 && s[0] != '='; s++)` applied to the part
of the string after its first character. -/
def splitAtEq : List Char → Option (List Char × List Char)
  | [] => none
  | c :: rest =>
    if c = '=' then some ([], rest)
    else (splitAtEq rest).map (fun p => (c :: p.1, p.2))

/-- The hex-run scanner `for (s = str; isxdigit(*s); s++) s++;` of
`parse_dn_part`: each probe that sees a hex digit advances `s` twice, so
only every second character is inspected and the measured length is always
even.  When the second advance crosses the end of the string the next probe
is a read past the terminator, modelled as reading NUL. -/
def hexScanLen : List Char → Nat
  | [] => 0
  | [c] => if xdigit c then 2 else 0
  | c :: _ :: rest => if xdigit c then 2 + hexScanLen rest else 0

/-- Decode `k` pairs of "hex digits" with `sscanf(s1, "%2hhx", p++)`,
advancing `s1` by two bytes per pair.  An `sscanf` matching failure leaves
the output byte unassigned in C; that case is unreachable (the scanner
checked the first character of every pair) and is modelled as the byte 0. -/
def decodeHexPairs : Nat → List Char → List Char
  | 0, _ => []
  | k + 1, l => Char.ofNat ((sscanf2hhx l).getD 0) :: decodeHexPairs k (l.drop 2)

/-- The characters accepted literally after a backslash escape. -/
def escChars : List Char := [',', '=', '+', '<', '>', '#', ';', '\\', '"', ' ']

/-- The unescaped characters that terminate a value (component boundary). -/
def delimChars : List Char := [',', '=', '+', '<', '>', '#', ';']

/-- The quoted-string value scan of `parse_dn_part` (the two C passes —
count, then decode — consume the input identically and are fused here):
returns the decoded value and the rest of the input starting at the
delimiter that ended the value (or `[]` at end of string); `none` on an
invalid escape sequence or a bare `'"'`. -/
def parseQuoted : List Char → Option (List Char × List Char)
  | [] => some ([], [])
  | c :: rest =>
    if c = '\\' then
      match rest with
      | [] => none
      | e :: rest2 =>
        if e ∈ escChars then
          (parseQuoted rest2).map (fun p => (e :: p.1, p.2))
        else
          match rest2 with
          | e2 :: rest3 =>
            if xdigit e && xdigit e2 then
              (parseQuoted rest3).map
                (fun p => (Char.ofNat ((sscanf2hhx (e :: e2 :: rest3)).getD 0) :: p.1, p.2))
            else none
          | [] => none
    else if c = '"' then none
    else if c ∈ delimChars then some ([], c :: rest)
    else (parseQuoted rest).map (fun p => (c :: p.1, p.2))

/-- `parse_dn_part` with its `mutt_mem_malloc` count: parses one RDN from a
nonempty input, returning (`none` on error, otherwise the attribute and the
rest of the input) together with how many buffers the call allocated (the
key and the value; on an error after the key was allocated the count is 1,
and the caller's cleanup frees it through the array slot). -/
def parse_dn_part_m (l : List Char) : Option (Attr × List Char) × Nat :=
  match l with
  | [] => (none, 0)
  | c :: rest =>
    match splitAtEq rest with
    | none => (none, 0)
    | some (pre, post) =>
      let key := c :: pre
      if key.length = 0 then (none, 0)
      else
        if post.head? = some '#' then
          let tl := post.tail
          let n := hexScanLen tl
          if n = 0 || n % 2 = 1 then (none, 1)
          else (some ((key, decodeHexPairs (n / 2) tl), tl.drop n), 2)
        else
          match parseQuoted post with
          | none => (none, 1)
          | some (v, r) => (some ((key, v), r), 2)

/-- `parse_dn_part` without the allocation count. -/
def parse_dn_part (l : List Char) : Option (Attr × List Char) :=
  (parse_dn_part_m l).1

/-- The RDN loop of `parse_dn`, fuelled (the fuel only bounds the number of
loop iterations; `parse_dn` passes more fuel than the input has characters,
which is always enough).  `acc` is the array of attributes parsed so far and
`live` the number of live allocated buffers (the array itself plus two per
parsed attribute).  On the `goto failure` paths the cleanup loop frees the
key and value of every entry written so far — including the partially
filled entry of a failed `parse_dn_part` call — and the array. -/
def parse_dn_aux : Nat → List Char → List Attr → Nat → Option (List Attr) × Nat
  | 0, _, _, live => (none, live)
  | fuel + 1, l, acc, live =>
    match l.dropWhile (fun c => c == ' ') with
    | [] => (some acc, live)
    | c :: ls =>
      match parse_dn_part_m (c :: ls) with
      | (none, k) => (none, (live + k) - (2 * acc.length + k + 1))
      | (some (a, rest), _) =>
        match rest.dropWhile (fun c => c == ' ') with
        | [] => (some (acc ++ [a]), live + 2)
        | d :: r2 =>
          if d = ',' || d = ';' || d = '+' then
            parse_dn_aux fuel r2 (acc ++ [a]) (live + 2)
          else (none, (live + 2) - (2 * (acc.length + 1) + 1))

/-- `parse_dn` with the live-allocation count: starts with the attribute
array allocated (`live = 1`). -/
def parse_dn_m (l : List Char) : Option (List Attr) × Nat :=
  parse_dn_aux (l.length + 1) l [] 1

/-- `parse_dn`: `none` models returning NULL after full cleanup. -/
def parse_dn (l : List Char) : Option (List Attr) :=
  (parse_dn_m l).1

/-- `print_utf8(fp, v, strlen(v))`: the charset conversion is modelled as
the identity; `strlen` stops at the first NUL byte, so only the prefix of
the value before its first NUL is written. -/
def printValue (v : List Char) : List Char :=
  v.takeWhile (fun c => c ≠ Char.ofNat 0)

/-- The separator `", "` written between rendered fields. -/
def sepCS : List Char := ", ".toList

/-- The separator `" + "` written between values of one attribute type. -/
def sepPlus : List Char := " + ".toList

/-- The canonical priority order `stdpart` of `print_dn_parts`. -/
def stdpart : List (List Char) :=
  [("CN".toList), ("OU".toList), ("O".toList), ("STREET".toList),
   ("L".toList), ("ST".toList), ("C".toList)]

/-- The loop of `print_dn_part`, with its running `any` flag: prints every
entry whose key equals `key`, `" + "` before each one after the first. -/
def printDnPartAux : List Attr → List Char → Bool → List Char × Bool
  | [], _, any => ([], any)
  | a :: rest, key, any =>
    if a.1 = key then
      let r := printDnPartAux rest key true
      ((if any then sepPlus else []) ++ printValue a.2 ++ r.1, r.2)
    else printDnPartAux rest key any

/-- `print_dn_part`: the written output and whether any entry matched. -/
def printDnPart (dn : List Attr) (key : List Char) : List Char × Bool :=
  printDnPartAux dn key false

/-- The first loop of `print_dn_parts` over the priority list: before each
type, `", "` is written when the PREVIOUS type matched (the `any` flag is
overwritten each iteration, not accumulated).  Returns the output and the
final `any` flag. -/
def stdLoop : List (List Char) → List Attr → Bool → List Char × Bool
  | [], _, any => ([], any)
  | p :: ps, dn, any =>
    let g := printDnPart dn p
    let r := stdLoop ps dn g.2
    ((if any then sepCS else []) ++ g.1 ++ r.1, r.2)

/-- The second loop of `print_dn_parts` over the array: entries whose key is
not in `stdpart` are printed via `print_dn_part` applied to the remaining
suffix of the array, `"("` before the first one (`any2`).  Returns the
output and the final `any2` flag. -/
def unknownLoop : List Attr → Bool → Bool → List Char × Bool
  | [], _, any2 => ([], any2)
  | a :: rest, any, any2 =>
    if a.1 ∈ stdpart then unknownLoop rest any any2
    else
      let g := printDnPart (a :: rest) a.1
      let r := unknownLoop rest g.2 true
      ((if any then sepCS else []) ++ (if any2 then [] else ['(']) ++ g.1 ++ r.1, r.2)

/-- `print_dn_parts`: priority types first, then the unknown-type group,
then the closing `")"` when any unknown entry was printed. -/
def print_dn_parts (dn : List Attr) : List Char :=
  let s := stdLoop stdpart dn false
  let u := unknownLoop dn s.2 false
  s.1 ++ u.1 ++ (if u.2 then [')'] else [])

/-- Join a list of strings with a separator (the spec's "comma-joined"). -/
def joinSep (sep : List Char) : List (List Char) → List Char
  | [] => []
  | [x] => x
  | x :: xs => x ++ sep ++ joinSep sep xs

/-- The values of all attributes of type `p`, in parse order. -/
def valuesOf (dn : List Attr) (p : List Char) : List (List Char) :=
  dn.filterMap (fun a => if a.1 = p then some a.2 else none)

/-- The spec's display group for one priority type: all its values joined
by `" + "`. -/
def specGroup (dn : List Attr) (p : List Char) : List Char :=
  joinSep sepPlus (valuesOf dn p)

/-- The display groups of the seven priority types, in canonical order. -/
def stdGroups (dn : List Attr) : List (List Char) :=
  stdpart.map (specGroup dn)

/-- The attributes whose type is outside the priority list, in parse order. -/
def unknownAttrs (dn : List Attr) : List Attr :=
  dn.filter (fun a => !(decide (a.1 ∈ stdpart)))

/-- The canonical `type=value` DN serialization of an attribute sequence:
RDNs joined by `','` (the round-trip claim's spec-side serializer). -/
def canonicalDnString (seq : List Attr) : List Char :=
  joinSep [','] (seq.map (fun a => a.1 ++ '=' :: a.2))

/-- Value characters the round-trip statement must exclude: the component
delimiters, the escape and quote characters, and NUL (a C string cannot
contain NUL). -/
def badValueChars : List Char :=
  [',', '=', '+', '<', '>', '#', ';', '\\', '"', Char.ofNat 0]

/-- Spec-side description of the priority loop's output on precomputed
(group output, group matched) pairs: `", "` is written before a group when
the previous group matched. -/
def sepFold : List (List Char × Bool) → Bool → List Char
  | [], _ => []
  | g :: gs, any => (if any then sepCS else []) ++ g.1 ++ sepFold gs g.2

lemma joinSep_cons (s x : List Char) (xs : List (List Char)) :
    joinSep s (x :: xs) = x ++ (if xs = [] then [] else s ++ joinSep s xs) := by
  cases xs <;> simp [joinSep]

lemma joinSep_append_single (s y : List Char) (xs : List (List Char)) :
    joinSep s (xs ++ [y]) = (if xs = [] then [] else joinSep s xs ++ s) ++ y := by
  induction xs with
  | nil => simp [joinSep]
  | cons x xs ih =>
    by_cases h : xs = [] <;>
      simp [joinSep_cons, ih, h, List.append_assoc]

lemma printValue_eq (v : List Char) (h : Char.ofNat 0 ∉ v) : printValue v = v := by
  unfold printValue
  refine List.takeWhile_eq_self_iff.mpr ?_
  intro x hx
  simp only [decide_eq_true_eq]
  intro hx0
  exact h (hx0 ▸ hx)

lemma valuesOf_cons (a : Attr) (l : List Attr) (p : List Char) :
    valuesOf (a :: l) p = if a.1 = p then a.2 :: valuesOf l p else valuesOf l p := by
  by_cases h : a.1 = p <;> simp [valuesOf, List.filterMap_cons, h]

lemma valuesOf_nil (p : List Char) : valuesOf [] p = [] := rfl

lemma mem_valuesOf {v : List Char} {dn : List Attr} {p : List Char} (h : v ∈ valuesOf dn p) :
    ∃ a ∈ dn, a.2 = v := by
  unfold valuesOf at h
  rw [List.mem_filterMap] at h
  obtain ⟨a, ha, hfa⟩ := h
  by_cases hp : a.1 = p
  · simp [hp] at hfa
    exact ⟨a, ha, hfa⟩
  · simp [hp] at hfa

lemma printDnPartAux_eq (l : List Attr) (p : List Char) (any : Bool) :
    printDnPartAux l p any =
      ((if any = true ∧ valuesOf l p ≠ [] then sepPlus else []) ++
        joinSep sepPlus ((valuesOf l p).map printValue),
       any || !(valuesOf l p).isEmpty) := by
  induction l generalizing any with
  | nil => simp [printDnPartAux, valuesOf_nil, joinSep]
  | cons a l ih =>
    by_cases h : a.1 = p
    · by_cases hvl : valuesOf l p = [] <;>
        simp [printDnPartAux, h, ih, valuesOf_cons, joinSep_cons, joinSep, hvl,
          List.append_assoc]
    · simp [printDnPartAux, h, ih, valuesOf_cons]

lemma printDnPart_eq (dn : List Attr) (p : List Char)
    (h : ∀ a ∈ dn, Char.ofNat 0 ∉ a.2) :
    printDnPart dn p = (specGroup dn p, !(valuesOf dn p).isEmpty) := by
  unfold printDnPart specGroup
  rw [printDnPartAux_eq]
  have hmap : (valuesOf dn p).map printValue = valuesOf dn p := by
    have : ∀ v ∈ valuesOf dn p, printValue v = v := by
      intro v hv
      obtain ⟨a, ha, hav⟩ := mem_valuesOf hv
      exact printValue_eq v (hav ▸ h a ha)
    calc (valuesOf dn p).map printValue = (valuesOf dn p).map id :=
          List.map_congr_left this
      _ = valuesOf dn p := List.map_id _
  simp [hmap]

lemma specGroup_eq_nil_iff (dn : List Attr) (p : List Char)
    (hv : ∀ a ∈ dn, a.2 ≠ []) :
    specGroup dn p = [] ↔ valuesOf dn p = [] := by
  constructor
  · intro h
    by_contra hne
    obtain ⟨v, vs, hcons⟩ := List.exists_cons_of_ne_nil hne
    have hvne : v ≠ [] := by
      have : v ∈ valuesOf dn p := by rw [hcons]; exact List.mem_cons_self _ _
      obtain ⟨a, ha, hav⟩ := mem_valuesOf this
      exact hav ▸ hv a ha
    unfold specGroup at h
    rw [hcons, joinSep_cons] at h
    rcases List.append_eq_nil.mp h with ⟨h1, _⟩
    exact hvne h1
  · intro h
    unfold specGroup
    rw [h]
    rfl

lemma mem_of_getLast_eq {α : Type} {l : List α} {a : α} (h : l.getLast? = some a) : a ∈ l := by
  induction l with
  | nil => simp at h
  | cons b bs ih =>
    cases bs with
    | nil => simp_all
    | cons c cs =>
      rw [List.getLast?_cons_cons] at h
      exact List.mem_cons_of_mem _ (ih h)

lemma getLast_exists_of_ne_nil {α : Type} {l : List α} (h : l ≠ []) :
    ∃ x, l.getLast? = some x := by
  cases l with
  | nil => exact absurd rfl h
  | cons b bs =>
    cases hx : (b :: bs).getLast? with
    | none => simp [List.getLast?_eq_none_iff] at hx
    | some x => exact ⟨x, rfl⟩

lemma filter_nonempty_eq_nil_iff (gs : List (List Char)) :
    gs.filter (fun g => !g.isEmpty) = [] ↔ ∀ g ∈ gs, g = [] := by
  rw [List.filter_eq_nil_iff]
  simp [List.isEmpty_iff]

lemma any_nonempty_iff (gs : List (List Char)) :
    (gs.any fun g => !g.isEmpty) = true ↔ ∃ g ∈ gs, g ≠ [] := by
  rw [List.any_eq_true]
  simp [List.isEmpty_iff]

lemma sepFold_eq (gs : List (List Char × Bool)) (any : Bool)
    (hc : ∀ g ∈ gs, g.2 = !g.1.isEmpty) :
    sepFold gs any =
      (if any = true ∧ gs ≠ [] then sepCS else []) ++
      joinSep sepCS ((gs.map Prod.fst).filter fun g => !g.isEmpty) ++
      (if ((gs.map Prod.fst).any fun g => !g.isEmpty) = true ∧
          (gs.map Prod.fst).getLast? = some [] then sepCS else []) := by
  induction gs generalizing any with
  | nil => simp [sepFold, joinSep]
  | cons g gs ih =>
    obtain ⟨o, m⟩ := g
    have hm : m = !o.isEmpty := hc (o, m) (List.mem_cons_self _ _)
    subst hm
    have ihgs := ih (!o.isEmpty) (fun g hg => hc g (List.mem_cons_of_mem _ hg))
    simp only [sepFold]
    rw [ihgs]
    by_cases ho : o = []
    · subst ho
      have hoB : (! ([] : List Char).isEmpty) = false := by decide
      cases gs with
      | nil => simp [joinSep, hoB]
      | cons g2 gs2 =>
        have hfil : List.filter (fun g => !g.isEmpty)
              (([] : List Char) :: g2.1 :: List.map Prod.fst gs2) =
            List.filter (fun g => !g.isEmpty) (g2.1 :: List.map Prod.fst gs2) := by
          rw [List.filter_cons]
          simp
        simp only [List.map_cons, hoB, Bool.false_eq_true, false_and, if_neg,
          not_false_eq_true, if_false]
        rw [hfil]
        simp only [List.getLast?_cons_cons, List.any_cons, List.isEmpty_nil,
          Bool.not_true, Bool.false_or]
        simp [List.append_assoc]
    · have hoB : (!o.isEmpty) = true := by simp [List.isEmpty_iff, ho]
      cases gs with
      | nil =>
        simp [joinSep, List.filter_cons_of_pos, hoB, ho]
      | cons g2 gs2 =>
        have hfil : List.filter (fun g => !g.isEmpty)
              (o :: g2.1 :: List.map Prod.fst gs2) =
            o :: List.filter (fun g => !g.isEmpty) (g2.1 :: List.map Prod.fst gs2) := by
          rw [List.filter_cons]
          simp [hoB]
        simp only [List.map_cons]
        rw [hfil]
        simp only [List.getLast?_cons_cons, List.any_cons, hoB, Bool.true_or, true_and,
          List.map_cons] at ihgs ⊢
        by_cases hf : ((g2.1 :: gs2.map Prod.fst).filter fun g => !g.isEmpty) = []
        · have hall : ∀ g ∈ g2.1 :: gs2.map Prod.fst, g = [] :=
            (filter_nonempty_eq_nil_iff _).mp hf
          have hany : ((g2.1 :: gs2.map Prod.fst).any fun g => !g.isEmpty) = false := by
            rw [Bool.eq_false_iff]
            intro hA
            obtain ⟨g, hgmem, hgne⟩ := (any_nonempty_iff _).mp hA
            exact hgne (hall g hgmem)
          obtain ⟨x, hx⟩ := getLast_exists_of_ne_nil
            (l := g2.1 :: gs2.map Prod.fst) (by simp)
          have hxnil : x = [] := hall x (mem_of_getLast_eq hx)
          subst hxnil
          rw [hf]
          rw [List.any_cons] at hany
          simp only [hany, hx, Bool.false_eq_true, false_and, if_false,
            eq_self_iff_true, if_true, and_true]
          simp [joinSep, List.append_assoc]
        · have hany : ((g2.1 :: gs2.map Prod.fst).any fun g => !g.isEmpty) = true := by
            rcases List.exists_cons_of_ne_nil hf with ⟨y, ys, hy⟩
            have hymem : y ∈ (g2.1 :: gs2.map Prod.fst).filter (fun g => !g.isEmpty) := by
              rw [hy]; exact List.mem_cons_self _ _
            have hmem := List.mem_of_mem_filter hymem
            have hprop := List.of_mem_filter hymem
            exact (any_nonempty_iff _).mpr ⟨y, hmem, by simpa [List.isEmpty_iff] using hprop⟩
          rw [joinSep_cons]
          rw [List.any_cons] at hany
          simp only [hany, eq_self_iff_true, true_and]
          simp [hf, List.append_assoc]

lemma printDnPart_snd (dn : List Attr) (p : List Char) :
    (printDnPart dn p).2 = !(valuesOf dn p).isEmpty := by
  unfold printDnPart
  rw [printDnPartAux_eq]
  simp

lemma stdLoop_fst (parts : List (List Char)) (dn : List Attr) (any : Bool)
    (h : ∀ a ∈ dn, Char.ofNat 0 ∉ a.2) :
    (stdLoop parts dn any).1 =
      sepFold (parts.map fun p => (specGroup dn p, !(valuesOf dn p).isEmpty)) any := by
  induction parts generalizing any with
  | nil => simp [stdLoop, sepFold]
  | cons p ps ih =>
    simp only [stdLoop, List.map_cons, sepFold]
    rw [printDnPart_eq dn p h]
    simp [ih]

lemma stdLoop_snd (parts : List (List Char)) (dn : List Attr) (any : Bool) :
    (stdLoop parts dn any).2 =
      (parts.map fun p => !(valuesOf dn p).isEmpty).getLastD any := by
  induction parts generalizing any with
  | nil => simp [stdLoop]
  | cons p ps ih =>
    simp only [stdLoop, List.map_cons]
    rw [List.getLastD_cons, ← ih, printDnPart_snd]

lemma valuesOf_eq_nil {l : List Attr} {p : List Char} (h : ∀ b ∈ l, b.1 ≠ p) :
    valuesOf l p = [] := by
  induction l with
  | nil => rfl
  | cons b l ih =>
    rw [valuesOf_cons, if_neg (h b (List.mem_cons_self _ _))]
    exact ih (fun x hx => h x (List.mem_cons_of_mem _ hx))

lemma unknownAttrs_nil : unknownAttrs [] = [] := rfl

lemma unknownAttrs_cons (a : Attr) (l : List Attr) :
    unknownAttrs (a :: l) =
      if a.1 ∈ stdpart then unknownAttrs l else a :: unknownAttrs l := by
  by_cases h : a.1 ∈ stdpart <;> simp [unknownAttrs, List.filter_cons, h]

lemma mem_unknownAttrs {b : Attr} {l : List Attr} (h : b ∈ unknownAttrs l) :
    b ∈ l ∧ b.1 ∉ stdpart := by
  unfold unknownAttrs at h
  have h1 := List.mem_of_mem_filter h
  have h2 := List.of_mem_filter h
  simp only [Bool.not_eq_true', decide_eq_false_iff_not] at h2
  exact ⟨h1, h2⟩

lemma unknownLoop_eq (l : List Attr) (any any2 : Bool)
    (hvn : ∀ a ∈ l, Char.ofNat 0 ∉ a.2)
    (hd : ((unknownAttrs l).map Prod.fst).Nodup) :
    unknownLoop l any any2 =
      if unknownAttrs l = [] then ([], any2)
      else ((if any = true then sepCS else []) ++ (if any2 = true then [] else ['(']) ++
            joinSep sepCS ((unknownAttrs l).map fun a => a.2), true) := by
  induction l generalizing any any2 with
  | nil => simp [unknownLoop, unknownAttrs_nil]
  | cons a l ih =>
    have hvl : ∀ b ∈ l, Char.ofNat 0 ∉ b.2 := fun b hb => hvn b (List.mem_cons_of_mem _ hb)
    by_cases hstd : a.1 ∈ stdpart
    · have hua : unknownAttrs (a :: l) = unknownAttrs l := by
        rw [unknownAttrs_cons, if_pos hstd]
      rw [hua] at hd
      simp only [unknownLoop, if_pos hstd]
      rw [ih any any2 hvl hd, hua]
    · have hua : unknownAttrs (a :: l) = a :: unknownAttrs l := by
        rw [unknownAttrs_cons, if_neg hstd]
      rw [hua] at hd
      simp only [List.map_cons, List.nodup_cons] at hd
      have hkeys : ∀ b ∈ l, b.1 ≠ a.1 := by
        intro b hb
        by_cases hbstd : b.1 ∈ stdpart
        · intro he
          exact hstd (he ▸ hbstd)
        · intro he
          apply hd.1
          have hbm : b ∈ unknownAttrs l := by
            unfold unknownAttrs
            refine List.mem_filter.mpr ⟨hb, ?_⟩
            simp [hbstd]
          rw [← he]
          exact List.mem_map_of_mem Prod.fst hbm
      have hvals : valuesOf l a.1 = [] := valuesOf_eq_nil hkeys
      have hprint : printDnPart (a :: l) a.1 = (a.2, true) := by
        rw [printDnPart_eq _ _ hvn]
        have h1 : valuesOf (a :: l) a.1 = [a.2] := by
          rw [valuesOf_cons, if_pos rfl, hvals]
        simp [specGroup, h1, joinSep]
      simp only [unknownLoop, if_neg hstd]
      rw [hprint]
      simp only
      rw [ih true true hvl hd.2, hua]
      by_cases hu : unknownAttrs l = []
      · simp [hu, joinSep]
      · simp only [hu, if_neg, hu, List.map_cons]
        have hmapne : (unknownAttrs l).map (fun a => a.2) ≠ [] := by
          simp [hu]
        simp only [if_neg (by simp [hu] : ¬(a :: unknownAttrs l = []))]
        rw [joinSep_cons, if_neg hmapne]
        simp [List.append_assoc, hu]

lemma stdGroups_map_fst (dn : List Attr) :
    (stdpart.map fun p => (specGroup dn p, !(valuesOf dn p).isEmpty)).map Prod.fst =
      stdGroups dn := by
  simp [stdGroups, List.map_map, Function.comp]

lemma stdGroups_getLast (dn : List Attr) :
    (stdGroups dn).getLast? = some (specGroup dn ("C".toList)) := rfl

lemma stdLoop_snd_eq_cflag (dn : List Attr) :
    (stdLoop stdpart dn false).2 = !(valuesOf dn ("C".toList)).isEmpty := by
  rw [stdLoop_snd]
  rfl

lemma specGroup_isEmpty_coupling (dn : List Attr) (p : List Char)
    (hv : ∀ a ∈ dn, a.2 ≠ []) :
    (!(valuesOf dn p).isEmpty) = !(specGroup dn p).isEmpty := by
  have h := specGroup_eq_nil_iff dn p hv
  by_cases hp : valuesOf dn p = []
  · simp [List.isEmpty_iff, hp, h.mpr hp]
  · have hsne : specGroup dn p ≠ [] := fun hc => hp (h.mp hc)
    have h1 : (valuesOf dn p).isEmpty = false := by
      rw [Bool.eq_false_iff, Ne, List.isEmpty_iff]
      exact hp
    have h2 : (specGroup dn p).isEmpty = false := by
      rw [Bool.eq_false_iff, Ne, List.isEmpty_iff]
      exact hsne
    rw [h1, h2]

/-- Full spec-side characterization of `print_dn_parts` for sequences with
nonempty, NUL-free values and pairwise distinct unknown attribute types: the
nonempty priority groups in canonical order, then (when present) the single
parenthesised unknown group, all joined by `", "`, plus the renderer's stray
trailing `", "` exactly when some priority group is nonempty, the `C` group
is empty and no unknown attribute exists. -/
lemma print_dn_parts_characterization (dn : List Attr)
    (hv : ∀ a ∈ dn, a.2 ≠ [] ∧ Char.ofNat 0 ∉ a.2)
    (hd : ((unknownAttrs dn).map Prod.fst).Nodup) :
    print_dn_parts dn =
      joinSep sepCS (((stdGroups dn).filter fun g => !g.isEmpty) ++
        (if unknownAttrs dn = [] then []
         else [['('] ++ joinSep sepCS ((unknownAttrs dn).map fun a => a.2) ++ [')']])) ++
      (if unknownAttrs dn = [] ∧ ((stdGroups dn).any fun g => !g.isEmpty) = true ∧
          specGroup dn ("C".toList) = [] then sepCS else []) := by
  have hnul : ∀ a ∈ dn, Char.ofNat 0 ∉ a.2 := fun a ha => (hv a ha).2
  have hne : ∀ a ∈ dn, a.2 ≠ [] := fun a ha => (hv a ha).1
  have hcoupling : ∀ g ∈ stdpart.map fun p => (specGroup dn p, !(valuesOf dn p).isEmpty),
      g.2 = !g.1.isEmpty := by
    intro g hg
    rw [List.mem_map] at hg
    obtain ⟨p, _, hpg⟩ := hg
    rw [← hpg]
    exact specGroup_isEmpty_coupling dn p hne
  have hfst : (stdLoop stdpart dn false).1 =
      joinSep sepCS ((stdGroups dn).filter fun g => !g.isEmpty) ++
      (if ((stdGroups dn).any fun g => !g.isEmpty) = true ∧
          (stdGroups dn).getLast? = some [] then sepCS else []) := by
    rw [stdLoop_fst stdpart dn false hnul, sepFold_eq _ _ hcoupling, stdGroups_map_fst]
    simp
  simp only [print_dn_parts]
  rw [stdLoop_snd_eq_cflag, unknownLoop_eq dn _ false hnul hd]
  by_cases hu : unknownAttrs dn = []
  · simp only [hu, if_pos rfl, eq_self_iff_true, true_and]
    rw [hfst, stdGroups_getLast]
    simp [Option.some_inj]
  · simp only [hu, if_neg, not_false_eq_true]
    rw [hfst, stdGroups_getLast]
    simp only [false_and, if_false, Bool.false_eq_true, if_true, List.append_nil]
    by_cases hA : ((stdGroups dn).any fun g => !g.isEmpty) = true
    · have hF : ((stdGroups dn).filter fun g => !g.isEmpty) ≠ [] := by
        obtain ⟨g, hgmem, hgne⟩ := (any_nonempty_iff _).mp hA
        intro hFnilC
        exact hgne ((filter_nonempty_eq_nil_iff _).mp hFnilC g hgmem)
      rw [joinSep_append_single, if_neg hF]
      by_cases hC : specGroup dn ("C".toList) = []
      · have hmC : (!(valuesOf dn ("C".toList)).isEmpty) = false := by
          rw [specGroup_isEmpty_coupling dn _ hne]
          have hC2 : specGroup dn ['C'] = [] := hC
          simp [List.isEmpty_iff, hC2]
        rw [hmC]
        simp only [hA, true_and, hC, Option.some_inj, eq_self_iff_true, if_true,
          Bool.false_eq_true, if_false]
        simp [List.append_assoc]
      · have hmC : (!(valuesOf dn ("C".toList)).isEmpty) = true := by
          rw [specGroup_isEmpty_coupling dn _ hne]
          have hC2 : ¬specGroup dn ['C'] = [] := hC
          simp [List.isEmpty_iff, hC2]
        rw [hmC]
        have : ¬(((stdGroups dn).any fun g => !g.isEmpty) = true ∧
            some (specGroup dn ("C".toList)) = some []) := by
          intro hcon
          exact hC (Option.some_inj.mp hcon.2)
        rw [if_neg this]
        simp [List.append_assoc]
    · have hallnil : ∀ g ∈ stdGroups dn, g = [] := by
        intro g hg
        by_contra hgne
        exact hA ((any_nonempty_iff _).mpr ⟨g, hg, hgne⟩)
      have hF : ((stdGroups dn).filter fun g => !g.isEmpty) = [] :=
        (filter_nonempty_eq_nil_iff _).mpr hallnil
      have hC : specGroup dn ("C".toList) = [] := by
        apply hallnil
        have : ("C".toList) ∈ stdpart := by
          simp [stdpart]
        exact List.mem_map_of_mem (specGroup dn) this
      have hmC : (!(valuesOf dn ("C".toList)).isEmpty) = false := by
        rw [specGroup_isEmpty_coupling dn _ hne]
        have hC2 : specGroup dn ['C'] = [] := hC
        simp [List.isEmpty_iff, hC2]
      rw [hmC, hF]
      have : ¬(((stdGroups dn).any fun g => !g.isEmpty) = true ∧
          some (specGroup dn ("C".toList)) = some []) := fun hcon => hA hcon.1
      rw [if_neg this]
      simp [joinSep, List.append_assoc]

lemma pq_empty_end : parseQuoted [] = some ([], []) := rfl

lemma pq_bs_end : parseQuoted ['\\'] = none := rfl

lemma pq_esc (e : Char) (rest2 : List Char) (he : e ∈ escChars) :
    parseQuoted ('\\' :: e :: rest2) =
      (parseQuoted rest2).map (fun p => (e :: p.1, p.2)) := by
  rw [parseQuoted.eq_def]
  simp [he]

lemma pq_eschex (e e2 : Char) (rest3 : List Char) (he : e ∉ escChars)
    (hx : (xdigit e && xdigit e2) = true) :
    parseQuoted ('\\' :: e :: e2 :: rest3) =
      (parseQuoted rest3).map
        (fun p => (Char.ofNat ((sscanf2hhx (e :: e2 :: rest3)).getD 0) :: p.1, p.2)) := by
  simp [parseQuoted, he, hx]

lemma pq_escbad (e e2 : Char) (rest3 : List Char) (he : e ∉ escChars)
    (hx : ¬(xdigit e && xdigit e2) = true) :
    parseQuoted ('\\' :: e :: e2 :: rest3) = none := by
  rw [parseQuoted.eq_def]
  simp [he, hx]

lemma pq_escend (e : Char) (he : e ∉ escChars) : parseQuoted ['\\', e] = none := by
  rw [parseQuoted.eq_def]
  simp [he]

lemma pq_quote (rest : List Char) : parseQuoted ('"' :: rest) = none := by
  rw [parseQuoted.eq_def]
  simp

lemma pq_delim (c : Char) (rest : List Char) (hb : ¬c = '\\') (hq : ¬c = '"')
    (hd : c ∈ delimChars) : parseQuoted (c :: rest) = some ([], c :: rest) := by
  rw [parseQuoted.eq_def]
  simp [hb, hq, hd]

lemma pq_plain (c : Char) (rest : List Char) (hb : ¬c = '\\') (hq : ¬c = '"')
    (hd : c ∉ delimChars) :
    parseQuoted (c :: rest) = (parseQuoted rest).map (fun p => (c :: p.1, p.2)) := by
  rw [parseQuoted.eq_def]
  simp [hb, hq, hd]

lemma part_m_none (c : Char) (rest : List Char) (h : splitAtEq rest = none) :
    parse_dn_part_m (c :: rest) = (none, 0) := by
  simp [parse_dn_part_m, h]

lemma part_m_some (c : Char) (rest pre post : List Char)
    (h : splitAtEq rest = some (pre, post)) :
    parse_dn_part_m (c :: rest) =
      if post.head? = some '#' then
        (if hexScanLen post.tail = 0 || hexScanLen post.tail % 2 = 1 then (none, 1)
         else (some (((c :: pre), decodeHexPairs (hexScanLen post.tail / 2) post.tail),
                post.tail.drop (hexScanLen post.tail)), 2))
      else (match parseQuoted post with
            | none => (none, 1)
            | some (v, r) => (some (((c :: pre), v), r), 2)) := by
  simp [parse_dn_part_m, h]

lemma map_preserving {X : List Char} {g : List Char → List Char} {v r : List Char}
    (h : (parseQuoted X).map (fun p => (g p.1, p.2)) = some (v, r)) :
    ∃ v2, parseQuoted X = some (v2, r) := by
  cases hq : parseQuoted X with
  | none => rw [hq] at h; simp at h
  | some p =>
    rw [hq] at h
    obtain ⟨v2, r2⟩ := p
    simp only [Option.map_some', Option.some.injEq, Prod.mk.injEq] at h
    exact ⟨v2, by rw [h.2]⟩

lemma parseQuoted_length (l : List Char) :
    ∀ v r, parseQuoted l = some (v, r) → r.length ≤ l.length := by
  induction l using parseQuoted.induct with
  | case1 =>
    intro v r h
    rw [pq_empty_end] at h
    simp only [Option.some.injEq, Prod.mk.injEq] at h
    rcases h with ⟨rfl, rfl⟩
    exact Nat.le_refl _
  | case2 =>
    intro v r h
    rw [pq_bs_end] at h
    exact Option.noConfusion h
  | case3 c1 rest hmem ih =>
    intro v r h
    rw [pq_esc c1 rest hmem] at h
    obtain ⟨v2, hq⟩ := map_preserving h
    have := ih v2 r hq
    simp only [List.length_cons]
    omega
  | case4 c1 hmem c2 tail hx ih =>
    intro v r h
    rw [pq_eschex c1 c2 tail hmem hx] at h
    obtain ⟨v2, hq⟩ := map_preserving h
    have := ih v2 r hq
    simp only [List.length_cons]
    omega
  | case5 c1 hmem c2 tail hx =>
    intro v r h
    rw [pq_escbad c1 c2 tail hmem hx] at h
    exact Option.noConfusion h
  | case6 c1 hmem =>
    intro v r h
    rw [pq_escend c1 hmem] at h
    exact Option.noConfusion h
  | case7 rest hne =>
    intro v r h
    rw [pq_quote rest] at h
    exact Option.noConfusion h
  | case8 c1 rest hb hq hd =>
    intro v r h
    rw [pq_delim c1 rest hb hq hd] at h
    simp only [Option.some.injEq, Prod.mk.injEq] at h
    rcases h with ⟨rfl, rfl⟩
    exact Nat.le_refl _
  | case9 c1 rest hb hq hd ih =>
    intro v r h
    rw [pq_plain c1 rest hb hq hd] at h
    obtain ⟨v2, hq2⟩ := map_preserving h
    have := ih v2 r hq2
    simp only [List.length_cons]
    omega

lemma splitAtEq_length (l : List Char) :
    ∀ pre post, splitAtEq l = some (pre, post) → post.length < l.length := by
  induction l with
  | nil => intro pre post h; simp [splitAtEq] at h
  | cons c rest ih =>
    intro pre post h
    simp only [splitAtEq] at h
    by_cases hc : c = '='
    · rw [if_pos hc] at h
      simp only [Option.some.injEq, Prod.mk.injEq] at h
      rw [← h.2]
      simp
    · rw [if_neg hc] at h
      cases hs : splitAtEq rest with
      | none => rw [hs] at h; simp at h
      | some p =>
        rw [hs] at h
        obtain ⟨pre2, post2⟩ := p
        simp only [Option.map_some', Option.some.injEq, Prod.mk.injEq] at h
        have := ih pre2 post2 hs
        rw [← h.2]
        simp only [List.length_cons]
        omega

lemma parse_dn_part_rest_lt (l : List Char) (a : Attr) (r : List Char) (k : Nat)
    (h : parse_dn_part_m l = (some (a, r), k)) : r.length < l.length := by
  cases l with
  | nil => simp [parse_dn_part_m] at h
  | cons c rest =>
    cases hsp : splitAtEq rest with
    | none =>
      rw [part_m_none c rest hsp] at h
      simp at h
    | some pq =>
      obtain ⟨pre, post⟩ := pq
      rw [part_m_some c rest pre post hsp] at h
      have hpost : post.length < rest.length := splitAtEq_length rest pre post hsp
      by_cases hh : post.head? = some '#'
      · rw [if_pos hh] at h
        by_cases hn : hexScanLen post.tail = 0 || hexScanLen post.tail % 2 = 1
        · rw [if_pos hn] at h
          simp at h
        · rw [if_neg hn] at h
          simp only [Prod.mk.injEq, Option.some.injEq] at h
          have hr : r = post.tail.drop (hexScanLen post.tail) := h.1.2.symm
          have h1 : r.length ≤ post.tail.length := by
            rw [hr, List.length_drop]
            omega
          have h2 : post.tail.length ≤ post.length := by
            cases post <;> simp
          simp only [List.length_cons]
          omega
      · rw [if_neg hh] at h
        cases hq : parseQuoted post with
        | none =>
          simp only [hq] at h
          simp at h
        | some p =>
          obtain ⟨v, rr⟩ := p
          simp only [hq] at h
          simp only [Prod.mk.injEq, Option.some.injEq] at h
          have hrr := parseQuoted_length post v rr hq
          have hr : r = rr := h.1.2.symm
          subst hr
          simp only [List.length_cons]
          omega

lemma parse_dn_aux_live (fuel : Nat) :
    ∀ (l : List Char) (acc : List Attr) (live : Nat) (res : Option (List Attr)) (n : Nat),
      l.length < fuel → live = 2 * acc.length + 1 →
      parse_dn_aux fuel l acc live = (res, n) →
      (res = none → n = 0) ∧
      (∀ attrs, res = some attrs → n = 2 * attrs.length + 1) := by
  induction fuel with
  | zero =>
    intro l acc live res n hf _ _
    exact absurd hf (Nat.not_lt_zero _)
  | succ fuel ih =>
    intro l acc live res n hf hl h
    simp only [parse_dn_aux] at h
    cases hdw : l.dropWhile (fun c => c == ' ') with
    | nil =>
      simp only [hdw] at h
      simp only [Prod.mk.injEq] at h
      constructor
      · intro hres
        rw [hres] at h
        simp at h
      · intro attrs hres
        rw [hres] at h
        obtain ⟨h1, h2⟩ := h
        rw [← h2, hl, Option.some_inj.mp h1]
    | cons c ls =>
      have hdwlen : (c :: ls).length ≤ l.length := by
        rw [← hdw]
        exact (List.dropWhile_sublist _).length_le
      simp only [hdw] at h
      cases hp : parse_dn_part_m (c :: ls) with
      | mk o k =>
        cases o with
        | none =>
          simp only [hp] at h
          simp only [Prod.mk.injEq] at h
          constructor
          · intro _
            rw [← h.2, hl]
            omega
          · intro attrs hres
            rw [hres] at h
            simp at h
        | some ar =>
          obtain ⟨a, rest⟩ := ar
          have hrest : rest.length < (c :: ls).length :=
            parse_dn_part_rest_lt _ a rest k hp
          simp only [hp] at h
          cases hdw2 : rest.dropWhile (fun c => c == ' ') with
          | nil =>
            simp only [hdw2] at h
            simp only [Prod.mk.injEq] at h
            constructor
            · intro hres
              rw [hres] at h
              simp at h
            · intro attrs hres
              rw [hres] at h
              obtain ⟨h1, h2⟩ := h
              rw [← h2, ← Option.some_inj.mp h1, hl]
              simp [List.length_append]
              omega
          | cons d r2 =>
            have hdw2len : (d :: r2).length ≤ rest.length := by
              rw [← hdw2]
              exact (List.dropWhile_sublist _).length_le
            simp only [hdw2] at h
            by_cases hdelim : (d = ',' || d = ';' || d = '+') = true
            · rw [if_pos hdelim] at h
              have hr2 : r2.length < fuel := by
                simp only [List.length_cons] at hdwlen hdw2len hrest hf ⊢
                omega
              have hacc : live + 2 = 2 * (acc ++ [a]).length + 1 := by
                simp [List.length_append, hl]
                omega
              exact ih r2 (acc ++ [a]) (live + 2) res n hr2 hacc h
            · rw [if_neg hdelim] at h
              simp only [Prod.mk.injEq] at h
              constructor
              · intro _
                rw [← h.2, hl]
                omega
              · intro attrs hres
                rw [hres] at h
                simp at h

lemma delim_sub_bad : ∀ c ∈ delimChars, c ∈ badValueChars := by decide

lemma splitAtEq_lit (t : List Char) (r : List Char) (h : '=' ∉ t) :
    splitAtEq (t ++ '=' :: r) = some (t, r) := by
  induction t with
  | nil => simp [splitAtEq]
  | cons c t ih =>
    have hc : ¬c = '=' := by
      intro hce
      subst hce
      exact h (List.mem_cons_self _ _)
    simp only [List.cons_append, splitAtEq]
    rw [if_neg hc]
    simp [ih (fun hm => h (List.mem_cons_of_mem _ hm))]

lemma parseQuoted_lit (v r : List Char) (hv : ∀ c ∈ v, c ∉ badValueChars)
    (hr : r = [] ∨ ∃ rt, r = ',' :: rt) :
    parseQuoted (v ++ r) = some (v, r) := by
  induction v with
  | nil =>
    rcases hr with rfl | ⟨rt, rfl⟩
    · rfl
    · rw [List.nil_append]
      exact pq_delim ',' rt (by decide) (by decide) (by decide)
  | cons c v ih =>
    have hc := hv c (List.mem_cons_self _ _)
    have hcb : ¬c = '\\' := by
      intro hh
      subst hh
      exact hc (by decide)
    have hcq : ¬c = '"' := by
      intro hh
      subst hh
      exact hc (by decide)
    have hcd : c ∉ delimChars := fun hm => hc (delim_sub_bad c hm)
    rw [List.cons_append, pq_plain c (v ++ r) hcb hcq hcd]
    simp [ih (fun x hx => hv x (List.mem_cons_of_mem _ hx))]

lemma parse_dn_part_lit (t0 : Char) (ts v r : List Char) (heq : '=' ∉ ts)
    (hv : ∀ c ∈ v, c ∉ badValueChars)
    (hr : r = [] ∨ ∃ rt, r = ',' :: rt) :
    parse_dn_part_m (t0 :: (ts ++ '=' :: (v ++ r))) = (some (((t0 :: ts), v), r), 2) := by
  have hsp : splitAtEq (ts ++ '=' :: (v ++ r)) = some (ts, v ++ r) := splitAtEq_lit ts _ heq
  rw [part_m_some t0 _ ts (v ++ r) hsp]
  have hhd : ¬(v ++ r).head? = some '#' := by
    cases v with
    | nil =>
      rcases hr with rfl | ⟨rt, rfl⟩
      · simp
      · simp
    | cons c v2 =>
      have hc := hv c (List.mem_cons_self _ _)
      simp only [List.cons_append, List.head?_cons, Option.some.injEq]
      intro hh
      subst hh
      exact hc (by decide)
  rw [if_neg hhd, parseQuoted_lit v r hv hr]

lemma canonicalDnString_cons (a : Attr) (rest : List Attr) :
    canonicalDnString (a :: rest) =
      (a.1 ++ '=' :: a.2) ++ (if rest = [] then [] else ',' :: canonicalDnString rest) := by
  unfold canonicalDnString
  rw [List.map_cons, joinSep_cons]
  by_cases h : rest = []
  · simp [h]
  · have hm : ¬rest.map (fun a => a.1 ++ '=' :: a.2) = [] := by
      simp [h]
    rw [if_neg hm, if_neg h]
    rfl

lemma stdpart_type_ok : ∀ t ∈ stdpart, t ≠ [] ∧ '=' ∉ t ∧ ' ' ∉ t := by decide

lemma parse_dn_aux_roundtrip (seq : List Attr) :
    ∀ (fuel : Nat) (acc : List Attr) (live : Nat),
      seq.length < fuel →
      (∀ a ∈ seq, a.1 ∈ stdpart) →
      (∀ a ∈ seq, ∀ c ∈ a.2, c ∉ badValueChars) →
      parse_dn_aux fuel (canonicalDnString seq) acc live =
        (some (acc ++ seq), live + 2 * seq.length) := by
  induction seq with
  | nil =>
    intro fuel acc live hf _ _
    cases fuel with
    | zero => exact absurd hf (Nat.not_lt_zero _)
    | succ f => simp [parse_dn_aux, canonicalDnString, joinSep]
  | cons a rest ih =>
    intro fuel acc live hf hk hb
    cases fuel with
    | zero => exact absurd hf (Nat.not_lt_zero _)
    | succ f =>
      obtain ⟨hane, haeq, hasp⟩ := stdpart_type_ok a.1 (hk a (List.mem_cons_self _ _))
      obtain ⟨t0, ts, ht⟩ := List.exists_cons_of_ne_nil hane
      have heqts : '=' ∉ ts := fun hm => haeq (ht ▸ List.mem_cons_of_mem _ hm)
      have ht0sp : ¬t0 = ' ' := by
        intro hh
        apply hasp
        rw [ht, hh]
        exact List.mem_cons_self _ _
      have hbval : ∀ c ∈ a.2, c ∉ badValueChars := hb a (List.mem_cons_self _ _)
      have hkrest : ∀ x ∈ rest, x.1 ∈ stdpart := fun x hx => hk x (List.mem_cons_of_mem _ hx)
      have hbrest : ∀ x ∈ rest, ∀ c ∈ x.2, c ∉ badValueChars :=
        fun x hx => hb x (List.mem_cons_of_mem _ hx)
      by_cases hrest : rest = []
      · subst hrest
        rw [canonicalDnString_cons, if_pos rfl, List.append_nil, ht, List.cons_append]
        have hpart := parse_dn_part_lit t0 ts a.2 [] heqts hbval (Or.inl rfl)
        rw [List.append_nil] at hpart
        simp only [parse_dn_aux]
        have hdw : (t0 :: (ts ++ '=' :: a.2)).dropWhile (fun c => c == ' ') =
            t0 :: (ts ++ '=' :: a.2) := by
          rw [List.dropWhile_cons, if_neg (by simp [ht0sp])]
        simp only [hdw, hpart, List.dropWhile_nil]
        rw [← ht]
        simp
      · rw [canonicalDnString_cons, if_neg hrest, ht]
        simp only [List.cons_append, List.append_assoc]
        have hpart := parse_dn_part_lit t0 ts a.2 (',' :: canonicalDnString rest) heqts hbval
          (Or.inr ⟨canonicalDnString rest, rfl⟩)
        simp only [parse_dn_aux, List.cons_append]
        have hdw : (t0 :: (ts ++ ('=' :: (a.2 ++ ',' :: canonicalDnString rest)))).dropWhile
            (fun c => c == ' ') = t0 :: (ts ++ '=' :: (a.2 ++ ',' :: canonicalDnString rest)) := by
          rw [List.dropWhile_cons, if_neg (by simp [ht0sp])]
        simp only [hdw, hpart]
        have hdw2 : (',' :: canonicalDnString rest).dropWhile (fun c => c == ' ') =
            ',' :: canonicalDnString rest := by
          rw [List.dropWhile_cons, if_neg (by decide)]
        simp only [hdw2]
        rw [if_pos (by decide)]
        have hflen : rest.length < f := by
          simp only [List.length_cons] at hf
          omega
        rw [← ht]
        simp only [Prod.mk.eta]
        rw [ih f (acc ++ [a]) (live + 2) hflen hkrest hbrest]
        simp only [Prod.mk.injEq]
        refine ⟨?_, ?_⟩
        · simp [List.append_assoc]
        · simp only [List.length_cons]
          omega

lemma xdigit_not_space (c : Char) (h : xdigit c = true) : isCSpace c = false := by
  rw [Bool.eq_false_iff]
  intro hs
  simp only [isCSpace, Bool.or_eq_true, decide_eq_true_eq] at hs
  have hnat : c.toNat = 32 ∨ c.toNat = 9 ∨ c.toNat = 10 ∨ c.toNat = 11 ∨
      c.toNat = 12 ∨ c.toNat = 13 := by
    rcases hs with ((((h1 | h1) | h1) | h1) | h1) | h1
    · left; rw [h1]; rfl
    · right; left; rw [h1]; rfl
    · right; right; left; rw [h1]; rfl
    · right; right; right; left; exact h1
    · right; right; right; right; left; exact h1
    · right; right; right; right; right; rw [h1]; rfl
  rcases hnat with hn | hn | hn | hn | hn | hn <;>
    exact absurd h
      (by rw [show c = Char.ofNat c.toNat from (Char.ofNat_toNat c).symm, hn]; decide)

lemma sscanf2hhx_hex (e1 e2 : Char) (w : List Char) (h1 : xdigit e1 = true)
    (h2 : xdigit e2 = true) :
    sscanf2hhx (e1 :: e2 :: w) = some (16 * hexVal e1 + hexVal e2) := by
  unfold sscanf2hhx
  rw [List.dropWhile_cons, if_neg (by rw [xdigit_not_space e1 h1]; simp)]
  simp [h1, h2]

lemma canonicalDnString_length (seq : List Attr) :
    seq.length ≤ (canonicalDnString seq).length := by
  induction seq with
  | nil => simp [canonicalDnString, joinSep]
  | cons a rest ih =>
    rw [canonicalDnString_cons]
    by_cases h : rest = []
    · subst h
      simp only [if_pos rfl, List.append_nil, List.length_append, List.length_cons,
        List.length_nil]
      omega
    · rw [if_neg h]
      simp only [List.length_append, List.length_cons]
      omega

/-- Claim C1 (amended): for every attribute sequence whose types all lie in
the priority list and whose values are nonempty and NUL-free, the renderer
emits the `" + "`-joined value groups in the canonical order CN, OU, O,
STREET, L, ST, C, with `", "` between consecutive non-empty groups and never
leading; a trailing `", "` is additionally emitted exactly when some group is
non-empty and the C group is empty.  In particular, rendering the parsed
attributes [{OU,"Eng"},{CN,"Alice"},{O,"Acme"}] writes exactly
"Alice, Eng, Acme, " (with the stray trailing separator). -/
theorem claim_C1 :
    (∀ dn : List Attr, (∀ a ∈ dn, a.1 ∈ stdpart) →
      (∀ a ∈ dn, a.2 ≠ [] ∧ Char.ofNat 0 ∉ a.2) →
      print_dn_parts dn =
        joinSep sepCS ((stdGroups dn).filter fun g => !g.isEmpty) ++
        (if ((stdGroups dn).any fun g => !g.isEmpty) = true ∧
            specGroup dn ("C".toList) = [] then sepCS else [])) ∧
    print_dn_parts [(("OU".toList), ("Eng".toList)), (("CN".toList), ("Alice".toList)),
      (("O".toList), ("Acme".toList))] = ("Alice, Eng, Acme, ".toList) := by
  constructor
  · intro dn hk hv
    have hu : unknownAttrs dn = [] := by
      unfold unknownAttrs
      rw [List.filter_eq_nil_iff]
      intro a ha
      simp [hk a ha]
    have hd : ((unknownAttrs dn).map Prod.fst).Nodup := by
      rw [hu]
      exact List.nodup_nil
    have h := print_dn_parts_characterization dn hv hd
    rw [h, hu]
    simp
  · decide

/-- Claim C1, counterexample to the original wording: the canonical example
renders with a trailing `", "`, not as "Alice, Eng, Acme". -/
theorem claim_C1_counterexample :
    print_dn_parts [(("OU".toList), ("Eng".toList)), (("CN".toList), ("Alice".toList)),
      (("O".toList), ("Acme".toList))] ≠ ("Alice, Eng, Acme".toList) ∧
    print_dn_parts [(("OU".toList), ("Eng".toList)), (("CN".toList), ("Alice".toList)),
      (("O".toList), ("Acme".toList))] = ("Alice, Eng, Acme, ".toList) := by
  exact ⟨by decide, by decide⟩

/-- Claim C1, witness: the amended statement applied to the example. -/
theorem claim_C1_witness :
    print_dn_parts [(("OU".toList), ("Eng".toList)), (("CN".toList), ("Alice".toList)),
      (("O".toList), ("Acme".toList))] =
      joinSep sepCS ((stdGroups [(("OU".toList), ("Eng".toList)),
          (("CN".toList), ("Alice".toList)), (("O".toList), ("Acme".toList))]).filter
          fun g => !g.isEmpty) ++
      (if ((stdGroups [(("OU".toList), ("Eng".toList)), (("CN".toList), ("Alice".toList)),
            (("O".toList), ("Acme".toList))]).any fun g => !g.isEmpty) = true ∧
          specGroup [(("OU".toList), ("Eng".toList)), (("CN".toList), ("Alice".toList)),
            (("O".toList), ("Acme".toList))] ("C".toList) = [] then sepCS else []) :=
  claim_C1.1 _ (by decide) (by decide)

/-- Claim C2 (amended): for every attribute sequence with nonempty, NUL-free
values whose unknown-typed attributes have pairwise distinct types, the
unknown attributes are rendered exactly once each, after all known-type
groups, comma-joined inside a single parenthesis pair, and the group is
separated from a preceding non-empty known group by `", "`.  In particular,
rendering [CN="A", X="1", Y="2"] writes exactly "A, (1, 2)" (with a comma
before the parenthesis, unlike the claim's "A (1, 2)"). -/
theorem claim_C2 :
    (∀ dn : List Attr, (∀ a ∈ dn, a.2 ≠ [] ∧ Char.ofNat 0 ∉ a.2) →
      ((unknownAttrs dn).map Prod.fst).Nodup → unknownAttrs dn ≠ [] →
      print_dn_parts dn =
        joinSep sepCS (((stdGroups dn).filter fun g => !g.isEmpty) ++
          [['('] ++ joinSep sepCS ((unknownAttrs dn).map fun a => a.2) ++ [')']])) ∧
    print_dn_parts [(("CN".toList), ("A".toList)), (("X".toList), ("1".toList)),
      (("Y".toList), ("2".toList))] = ("A, (1, 2)".toList) := by
  constructor
  · intro dn hv hd hu
    have h := print_dn_parts_characterization dn hv hd
    rw [h, if_neg hu, if_neg (fun hc => hu hc.1)]
    simp
  · decide

/-- Claim C2, counterexample to the original wording: the unknown group is
preceded by `", "`, so the example renders "A, (1, 2)", not "A (1, 2)". -/
theorem claim_C2_counterexample :
    print_dn_parts [(("CN".toList), ("A".toList)), (("X".toList), ("1".toList)),
      (("Y".toList), ("2".toList))] ≠ ("A (1, 2)".toList) ∧
    print_dn_parts [(("CN".toList), ("A".toList)), (("X".toList), ("1".toList)),
      (("Y".toList), ("2".toList))] = ("A, (1, 2)".toList) := by
  exact ⟨by decide, by decide⟩

/-- Claim C2, witness: the amended statement applied to the example. -/
theorem claim_C2_witness :
    print_dn_parts [(("CN".toList), ("A".toList)), (("X".toList), ("1".toList)),
      (("Y".toList), ("2".toList))] =
      joinSep sepCS (((stdGroups [(("CN".toList), ("A".toList)), (("X".toList), ("1".toList)),
          (("Y".toList), ("2".toList))]).filter fun g => !g.isEmpty) ++
        [['('] ++ joinSep sepCS ((unknownAttrs [(("CN".toList), ("A".toList)),
          (("X".toList), ("1".toList)), (("Y".toList), ("2".toList))]).map fun a => a.2) ++
          [')']]) :=
  claim_C2.1 _ (by decide) (by decide) (by decide)

/-- Claim C3: the spec says `parse_dn("CN=#ABC")` fails with an invalid hex
run, but the scanner's doubled increment measures the three-digit run as
four characters (an even count), so the odd-length check cannot fire: the
code decodes "AB" and "C" (reading past the digit run) and the parse
SUCCEEDS with the two bytes 0xAB 0x0C. -/
theorem claim_C3 :
    parse_dn ("CN=#ABC".toList) =
      some [(("CN".toList), [Char.ofNat 171, Char.ofNat 12])] := by
  decide

/-- Claim C4: the spec says an empty attribute type fails, but the type scan
starts at `str + 1`, unconditionally absorbing the first character, so the
`n == 0` "empty key" check is unreachable: `parse_dn("=x=y")` SUCCEEDS with
the single attribute {key:"=x", value:"y"}. -/
theorem claim_C4 :
    parse_dn ("=x=y".toList) = some [(("=x".toList), ("y".toList))] := by
  decide

/-- Claim C5: `parse_dn` either fails having released every allocation (the
live-buffer count drops to 0) or returns a complete sequence owning exactly
the array plus two buffers per attribute; no partial sequence is observable. -/
theorem claim_C5 (l : List Char) :
    ((parse_dn_m l).1 = none → (parse_dn_m l).2 = 0) ∧
    (∀ attrs, (parse_dn_m l).1 = some attrs →
      (parse_dn_m l).2 = 2 * attrs.length + 1) :=
  parse_dn_aux_live (l.length + 1) l [] 1 (parse_dn_m l).1 (parse_dn_m l).2
    (Nat.lt_succ_self _) (by simp) (by simp [parse_dn_m])

/-- Claim C5, witness: a failing parse ends with zero live buffers and a
successful one-attribute parse with exactly three. -/
theorem claim_C5_witness :
    (parse_dn_m ("x".toList)).2 = 0 ∧ (parse_dn_m ("CN=a".toList)).2 = 3 := by
  exact ⟨(claim_C5 _).1 (by decide),
    (claim_C5 _).2 [(("CN".toList), ("a".toList))] (by decide)⟩

/-- Claim C6: within a non-hex value a backslash before a reserved character
yields that character, a backslash before two hex digits yields the decoded
byte, and a backslash before anything else makes `parse_dn` fail; in
particular `parse_dn("CN=John\,Doe")` yields {key:"CN", value:"John,Doe"}. -/
theorem claim_C6 :
    (∀ (e : Char) (w : List Char), e ∈ escChars →
      parseQuoted ('\\' :: e :: w) = (parseQuoted w).map (fun p => (e :: p.1, p.2))) ∧
    (∀ (e1 e2 : Char) (w : List Char), xdigit e1 = true → xdigit e2 = true →
      parseQuoted ('\\' :: e1 :: e2 :: w) =
        (parseQuoted w).map
          (fun p => (Char.ofNat (16 * hexVal e1 + hexVal e2) :: p.1, p.2))) ∧
    (∀ (e1 e2 : Char) (w : List Char), e1 ∉ escChars →
      ¬(xdigit e1 = true ∧ xdigit e2 = true) →
      parse_dn (("CN=".toList) ++ '\\' :: e1 :: e2 :: w) = none) ∧
    parse_dn ("CN=John\\,Doe".toList) = some [(("CN".toList), ("John,Doe".toList))] := by
  refine ⟨fun e w he => pq_esc e w he, ?_, ?_, by decide⟩
  · intro e1 e2 w h1 h2
    have hne : e1 ∉ escChars := by
      intro hm
      simp only [escChars, List.mem_cons, List.not_mem_nil, or_false] at hm
      rcases hm with rfl | rfl | rfl | rfl | rfl | rfl | rfl | rfl | rfl | rfl <;>
        exact absurd h1 (by decide)
    rw [pq_eschex e1 e2 w hne (by rw [h1, h2]; rfl), sscanf2hhx_hex e1 e2 w h1 h2]
    rfl
  · intro e1 e2 w hne hnx
    have hq : parseQuoted ('\\' :: e1 :: e2 :: w) = none :=
      pq_escbad e1 e2 w hne (by simpa [Bool.and_eq_true] using hnx)
    have hsp : splitAtEq ('N' :: '=' :: ('\\' :: e1 :: e2 :: w)) =
        some (['N'], '\\' :: e1 :: e2 :: w) := by
      simp [splitAtEq]
    have hpart : parse_dn_part_m ('C' :: 'N' :: '=' :: ('\\' :: e1 :: e2 :: w)) =
        (none, 1) := by
      rw [part_m_some 'C' _ ['N'] ('\\' :: e1 :: e2 :: w) hsp]
      rw [if_neg (by simp : ¬(('\\' :: e1 :: e2 :: w).head? = some '#'))]
      simp only [hq]
    show parse_dn ('C' :: 'N' :: '=' :: ('\\' :: e1 :: e2 :: w)) = none
    unfold parse_dn parse_dn_m
    simp only [parse_dn_aux]
    rw [List.dropWhile_cons, if_neg (by decide)]
    simp [hpart]

/-- Claim C6, witness: each escape rule applied at a concrete input. -/
theorem claim_C6_witness :
    parseQuoted ('\\' :: ',' :: ("Doe".toList)) =
      (parseQuoted ("Doe".toList)).map (fun p => (',' :: p.1, p.2)) ∧
    parseQuoted ('\\' :: '4' :: '1' :: []) =
      (parseQuoted []).map (fun p => (Char.ofNat (16 * hexVal '4' + hexVal '1') :: p.1, p.2)) ∧
    parse_dn (("CN=".toList) ++ '\\' :: 'q' :: 'r' :: []) = none := by
  exact ⟨claim_C6.1 ',' _ (by decide), claim_C6.2.1 '4' '1' [] (by decide) (by decide),
    claim_C6.2.2.1 'q' 'r' [] (by decide) (by decide)⟩

/-- Claim C7: `parse_dn("CN=#48656C6C6F")` succeeds with the single
attribute {key:"CN", value:"Hello"}: each hex-digit pair after `#` decodes
to one byte of the value. -/
theorem claim_C7 :
    parse_dn ("CN=#48656C6C6F".toList) =
      some [(("CN".toList), ("Hello".toList))] := by
  decide

/-- Claim C8 (amended): the renderer emits bare values (no `type=`), so its
output is not re-parseable; parsing instead the canonical `type=value` DN
serialization of a sequence whose types are drawn from the priority list and
whose values avoid the delimiter/escape/quote/NUL characters returns exactly
that sequence, and therefore re-rendering the parse result reproduces the
rendering of the original sequence. -/
theorem claim_C8 (seq : List Attr)
    (h1 : ∀ a ∈ seq, a.1 ∈ stdpart)
    (h2 : (seq.map Prod.fst).Nodup)
    (h3 : ∀ a ∈ seq, ∀ c ∈ a.2, c ∉ badValueChars) :
    (parse_dn (canonicalDnString seq)).map print_dn_parts =
      some (print_dn_parts seq) := by
  have hlen : seq.length < (canonicalDnString seq).length + 1 :=
    Nat.lt_succ_of_le (canonicalDnString_length seq)
  have h := parse_dn_aux_roundtrip seq ((canonicalDnString seq).length + 1) [] 1 hlen h1 h3
  unfold parse_dn parse_dn_m
  rw [h]
  rfl

/-- Claim C8, counterexample to the original wording: parsing the renderer's
own output fails (it contains no `=`), so render-parse-render cannot
reproduce the rendered string. -/
theorem claim_C8_counterexample :
    print_dn_parts [(("CN".toList), ("Alice".toList))] = ("Alice, ".toList) ∧
    parse_dn ("Alice, ".toList) = none ∧
    (parse_dn (print_dn_parts [(("CN".toList), ("Alice".toList))])).map print_dn_parts ≠
      some (print_dn_parts [(("CN".toList), ("Alice".toList))]) := by
  exact ⟨by decide, by decide, by decide⟩

/-- Claim C8, witness: the amended round trip at a concrete sequence. -/
theorem claim_C8_witness :
    (parse_dn (canonicalDnString [(("CN".toList), ("Alice".toList)),
        (("O".toList), ("Acme".toList))])).map print_dn_parts =
      some (print_dn_parts [(("CN".toList), ("Alice".toList)),
        (("O".toList), ("Acme".toList))]) :=
  claim_C8 _ (by decide) (by decide) (by decide)

/-- Claim C9: parsing the empty string succeeds with the empty (sentinel
only) attribute sequence. -/
theorem claim_C9 : parse_dn ("".toList) = some [] := rfl

/-- Claim C10: the hex scanner inspects only every second character of the
run (its probe advances two bytes), so a run whose odd positions hold
non-hex characters is accepted: `parse_dn("CN=#4z41")` succeeds and the
value is the two bytes 0x04 0x41 (`sscanf` stops at the `z`). -/
theorem claim_C10 :
    (∀ (a b : Char) (t : List Char),
      hexScanLen (a :: b :: t) = if xdigit a then 2 + hexScanLen t else 0) ∧
    parse_dn ("CN=#4z41".toList) = some [(("CN".toList), [Char.ofNat 4, 'A'])] := by
  exact ⟨fun a b t => rfl, by decide⟩
